import Mathlib

set_option maxRecDepth 100000

/-!
Verification of the PXIconPack build-preparation scripts
(`.github/scripts/prepare-iconpacks.py` and `.github/scripts/automate_iconpacks.py`).

Strings are embedded as `List Char` (Python strings are sequences of code points).
`charLower` models Python `str.lower` restricted to the ASCII letters that the
scripts' inputs use; the regex character class `[^a-zA-Z0-9]` is modelled by
`isAsciiAlnum`.  File names come from `os.listdir`, hence contain no path
separator, so `splitext` is modelled on separator-free names.
-/

namespace PXIconPack

/-- The uppercase-to-lowercase table of ASCII letters. -/
def lowerPairs : List (Char × Char) :=
  [('A', 'a'), ('B', 'b'), ('C', 'c'), ('D', 'd'), ('E', 'e'), ('F', 'f'),
   ('G', 'g'), ('H', 'h'), ('I', 'i'), ('J', 'j'), ('K', 'k'), ('L', 'l'),
   ('M', 'm'), ('N', 'n'), ('O', 'o'), ('P', 'p'), ('Q', 'q'), ('R', 'r'),
   ('S', 's'), ('T', 't'), ('U', 'u'), ('V', 'v'), ('W', 'w'), ('X', 'x'),
   ('Y', 'y'), ('Z', 'z')]

/-- Model of Python `str.lower` on one code point (ASCII letters). -/
def charLower (c : Char) : Char :=
  ((lowerPairs.find? (fun pr => pr.1 = c)).map Prod.snd).getD c

/-- Model of Python `str.lower` on a whole string. -/
def pyLower (s : List Char) : List Char :=
  s.map charLower

/-- The regex character class `[a-zA-Z0-9]` used in `re.sub(r'[^a-zA-Z0-9]', '_', ...)`. -/
def isAsciiAlnum (c : Char) : Bool :=
  "abcdefghijklmnopqrstuvwxyzABCDEFGHIJKLMNOPQRSTUVWXYZ0123456789".toList.contains c

/-- One step of the regex substitution `re.sub(r'[^a-zA-Z0-9]', '_', s)`. -/
def subChar (c : Char) : Char :=
  if isAsciiAlnum c then c else '_'

/-- The slug `pack_name_lower = re.sub(r'[^a-zA-Z0-9]', '_', pack_name.lower())`
(`prepare-iconpacks.py` lines 56/101/144/187, `automate_iconpacks.py` 25/69/110). -/
def slugify (pack_name : List Char) : List Char :=
  (pyLower pack_name).map subChar

/-- Embedding of `normalize_package_name` from `prepare-iconpacks.py` lines 19-25 (the inline
`if/elif` of `automate_iconpacks.py` lines 32-35 and 141-144 is the same map). -/
def normalize_package_name (package_name : List Char) : List Char :=
  if package_name = "com.android.systemui".toList then "systemui".toList
  else if package_name = "com.android.settings".toList then "settings".toList
  else package_name

/-- Index of the last occurrence of `c` in `s`, if any. -/
def lastIdx (c : Char) : List Char → Option Nat
  | [] => none
  | x :: xs =>
    match lastIdx c xs with
    | some i => some (i + 1)
    | none => if x = c then some 0 else none

/-- Model of `os.path.splitext` on a separator-free file name: split at the last
dot, provided some earlier character of the name is not a dot (leading dots do
not start an extension). -/
def splitext (file : List Char) : List Char × List Char :=
  match lastIdx '.' file with
  | none => (file, [])
  | some d =>
    if (file.take d).any (fun c => c ≠ '.') then (file.take d, file.drop d)
    else (file, [])

/-- The list `VALID_DRAWABLE_EXTENSIONS` from `prepare-iconpacks.py` line 16. -/
def VALID_DRAWABLE_EXTENSIONS : List (List Char) :=
  [".xml".toList, ".png".toList, ".jpg".toList, ".jpeg".toList, ".webp".toList]

/-- The extension whitelist hard-coded in `automate_iconpacks.py`
(lines 40, 130, 149): note the absence of `.webp`. -/
def AUTOMATE_EXTENSIONS : List (List Char) :=
  [".xml".toList, ".png".toList, ".jpg".toList, ".jpeg".toList]

/-- The test `file_extension = os.path.splitext(file)[1].lower()` followed by the
membership test `file_extension in VALID_DRAWABLE_EXTENSIONS`. -/
def qualifies (file : List Char) : Bool :=
  VALID_DRAWABLE_EXTENSIONS.contains (pyLower (splitext file).2)

/-- The membership test of `automate_iconpacks.py`:
`file_extension in ['.xml', '.png', '.jpg', '.jpeg']`. -/
def qualifiesAutomate (file : List Char) : Bool :=
  AUTOMATE_EXTENSIONS.contains (pyLower (splitext file).2)

/-- Model of Python `str.find`: index of the first occurrence of `sub` in `s`
(`none` models the return value `-1`). -/
def pyFind (sub : List Char) : List Char → Option Nat
  | [] => if sub.isPrefixOf [] then some 0 else none
  | c :: t => if sub.isPrefixOf (c :: t) then some 0 else (pyFind sub t).map (· + 1)

/-- Proposition that `sub` occurs somewhere in `s` as a contiguous substring. -/
def hasSub (sub s : List Char) : Prop :=
  ∃ pre post, s = pre ++ sub ++ post

/-- Number of positions of `s` at which `sub` starts (used to count generated
XML tags). -/
def countSub (sub : List Char) : List Char → Nat
  | [] => 0
  | c :: cs => (if sub.isPrefixOf (c :: cs) then 1 else 0) + countSub sub cs

/-- The regex class `[a-zA-Z0-9_]` of the pattern `@drawable/([a-zA-Z0-9_]+)`. -/
def isWordChar (c : Char) : Bool :=
  isAsciiAlnum c || c = '_'

/-- The literal part of the search pattern in `replace_drawable_references`. -/
def drawablePat : List Char :=
  "@drawable/".toList

/-- Attempt to match `@drawable/([a-zA-Z0-9_]+)` at the start of `s`, returning
the captured group and the remainder after the match. -/
def matchAt (s : List Char) : Option (List Char × List Char) :=
  if drawablePat.isPrefixOf s then
    let rest := s.drop drawablePat.length
    let name := rest.takeWhile isWordChar
    if name.isEmpty then none else some (name, rest.dropWhile isWordChar)
  else none

/-- The replacement applied to one match of `replace_drawable_references`
(`prepare-iconpacks.py` lines 42-46): group 1 becomes
`{drawable_name}_{package_name}_{pack_name_lower}`. -/
def drawableRepl (package_name pack_name_lower name : List Char) : List Char :=
  drawablePat ++ name ++ ('_' :: package_name) ++ ('_' :: pack_name_lower)

/-- Fuel-indexed scan of `re.sub(r'@drawable/([a-zA-Z0-9_]+)', replace, content)`:
left-to-right, non-overlapping, each match greedy. -/
def replaceAux (package_name pack_name_lower : List Char) : Nat → List Char → List Char
  | 0, s => s
  | _ + 1, [] => []
  | fuel + 1, c :: cs =>
    match matchAt (c :: cs) with
    | some (name, rest) =>
      drawableRepl package_name pack_name_lower name ++
        replaceAux package_name pack_name_lower fuel rest
    | none => c :: replaceAux package_name pack_name_lower fuel cs

/-- Embedding of `replace_drawable_references` from `prepare-iconpacks.py` lines 39-48. -/
def replace_drawable_references (package_name pack_name_lower content : List Char) : List Char :=
  replaceAux package_name pack_name_lower content.length content

/-- A file of a package directory: its `os.listdir` name and its content
(content is only consulted for `.xml` files). -/
structure PFile where
  name : List Char
  content : List Char
deriving DecidableEq

/-- An entry of a pack directory: a name, whether `os.path.isdir` holds for it,
and (when it is a directory) the files `os.listdir` yields inside it. -/
structure PackEntry where
  name : List Char
  isDir : Bool
  files : List PFile
deriving DecidableEq

/-- An icon pack: a subdirectory of `./iconpacks` and its directory listing. -/
structure IconPack where
  name : List Char
  entries : List PackEntry
deriving DecidableEq

/-- Embedding of `update_drawable_references` from `prepare-iconpacks.py` lines 51-86,
modelled as the list of `(file name, new content)` write-backs it performs:
a file is written only when the substituted content differs from the original. -/
def update_drawable_references (packs : List IconPack) : List (List Char × List Char) :=
  packs.flatMap (fun pack =>
    let pack_name_lower := slugify pack.name
    pack.entries.flatMap (fun e =>
      if e.isDir then
        let package_name := normalize_package_name e.name
        e.files.filterMap (fun f =>
          let file_extension := pyLower (splitext f.name).2
          if VALID_DRAWABLE_EXTENSIONS.contains file_extension then
            if file_extension = ".xml".toList then
              let updated_content := replace_drawable_references package_name pack_name_lower f.content
              if updated_content ≠ f.content then some (f.name, updated_content) else none
            else none
          else none)
      else []))

/-- Embedding of `copy_and_rename_files` from `prepare-iconpacks.py` lines 89-124, modelled
as the list of destination file names it creates in the drawable directory, in
copy order. -/
def copy_and_rename_files (packs : List IconPack) : List (List Char) :=
  packs.flatMap (fun pack =>
    let pack_name_lower := slugify pack.name
    pack.entries.flatMap (fun e =>
      if e.isDir then
        let package_name := normalize_package_name e.name
        e.files.filterMap (fun f =>
          let file_extension := pyLower (splitext f.name).2
          if VALID_DRAWABLE_EXTENSIONS.contains file_extension then
            some ((splitext f.name).1 ++ ('_' :: pyLower package_name) ++
              ('_' :: pack_name_lower) ++ file_extension)
          else none)
      else []))

/-- Embedding of `copy_and_rename_files` from `automate_iconpacks.py` lines 21-50 (inline
package normalization, whitelist without `.webp`). -/
def automate_copy_and_rename_files (packs : List IconPack) : List (List Char) :=
  packs.flatMap (fun pack =>
    let pack_name_lower := slugify pack.name
    pack.entries.flatMap (fun e =>
      if e.isDir then
        let package_name :=
          if e.name = "com.android.systemui".toList then "systemui".toList
          else if e.name = "com.android.settings".toList then "settings".toList
          else e.name
        e.files.filterMap (fun f =>
          let file_extension := pyLower (splitext f.name).2
          if AUTOMATE_EXTENSIONS.contains file_extension then
            some ((splitext f.name).1 ++ ('_' :: pyLower package_name) ++
              ('_' :: pack_name_lower) ++ file_extension)
          else none)
      else []))

/-- The filename as claim C1 words it (spec §8): basename, underscore,
normalized package name, underscore, pack slug, then the file's original
extension.  Kept separate from the source embedding for comparison. -/
def claimed_file_name (pack_name package_name file : List Char) : List Char :=
  (splitext file).1 ++ ('_' :: normalize_package_name package_name) ++
    ('_' :: slugify pack_name) ++ (splitext file).2

/-- The marker `start_comment` of `update_manifest` (`prepare-iconpacks.py` line 133). -/
def start_comment : List Char :=
  "<!-- START OF ICON PACKS -->".toList

/-- The marker `end_comment` of `update_manifest` (`prepare-iconpacks.py` line 134). -/
def end_comment : List Char :=
  "<!-- END OF ICON PACKS -->".toList

/-- The activity fragment generated for one pack (`prepare-iconpacks.py`
lines 145-154). -/
def activity_block (pack_name : List Char) : List Char :=
  "\n    <activity android:name=\"".toList ++ slugify pack_name ++
  "\"\n        android:label=\"".toList ++ pack_name ++
  "\"\n        android:exported=\"true\">\n        <intent-filter>\n            <action android:name=\"sh.siava.pixelxpert.iconpack\" />\n            <category android:name=\"android.intent.category.DEFAULT\" />\n        </intent-filter>\n    </activity>\n".toList

/-- The `activities` accumulator of `update_manifest` (lines 142-154). -/
def activities (packs : List IconPack) : List Char :=
  packs.foldl (fun acc pack => acc ++ activity_block pack.name) []

/-- Embedding of `update_manifest` from `prepare-iconpacks.py` lines 127-168, as a function
from the manifest content and the pack list to the written content; `none`
models `sys.exit(1)` before any write. -/
def update_manifest (manifest_content : List Char) (packs : List IconPack) : Option (List Char) :=
  match pyFind start_comment manifest_content, pyFind end_comment manifest_content with
  | some start_idx, some end_idx =>
    some (manifest_content.take (start_idx + start_comment.length) ++
      activities packs ++ manifest_content.drop end_idx)
  | _, _ => none

/-- The manifest file content after running `update_manifest` on it: unchanged
on the `sys.exit(1)` path, the spliced content otherwise. -/
def manifest_file_after (manifest_content : List Char) (packs : List IconPack) : List Char :=
  (update_manifest manifest_content packs).getD manifest_content

/-- One mapping-source item line (`prepare-iconpacks.py` line 208):
`    <item>{package_name}:{basename}</item>\n` with the raw package name. -/
def item_line_mapping (package_name file : List Char) : List Char :=
  "    <item>".toList ++ package_name ++ (':' :: (splitext file).1) ++ "</item>\n".toList

/-- One replacement item line (`prepare-iconpacks.py` lines 224-225): the item
is the renamed base `{basename}_{package_name.lower()}_{pack_name_lower}` with
`package_name` already normalized. -/
def item_line_replacement (pack_name_lower package_name file : List Char) : List Char :=
  "    <item>".toList ++ (splitext file).1 ++ ('_' :: pyLower package_name) ++
    ('_' :: pack_name_lower) ++ "</item>\n".toList

/-- The item lines of the `mapping_source_{slug}` array, in generation order
(`prepare-iconpacks.py` lines 199-208). -/
def mapping_source_items (entries : List PackEntry) : List (List Char) :=
  entries.flatMap (fun e =>
    if e.isDir then
      ((e.files.map PFile.name).filter qualifies).map (fun f => item_line_mapping e.name f)
    else [])

/-- The item lines of the `replacement_{slug}` array, in generation order
(`prepare-iconpacks.py` lines 214-225). -/
def replacement_items (pack_name_lower : List Char) (entries : List PackEntry) : List (List Char) :=
  entries.flatMap (fun e =>
    if e.isDir then
      ((e.files.map PFile.name).filter qualifies).map
        (fun f => item_line_replacement pack_name_lower (normalize_package_name e.name) f)
    else [])

/-- The index array generated per pack (`prepare-iconpacks.py` lines 189-194). -/
def index_array (pack_name_lower : List Char) : List Char :=
  "\n<string-array name=\"".toList ++ pack_name_lower ++
  "\">\n    <item>mapping_source_".toList ++ pack_name_lower ++
  "</item>\n    <item>replacement_".toList ++ pack_name_lower ++
  "</item>\n</string-array>\n".toList

/-- The `mapping_source_{slug}` array generated per pack
(`prepare-iconpacks.py` lines 196-209). -/
def mapping_source_array (pack_name_lower : List Char) (entries : List PackEntry) : List Char :=
  "\n<string-array name=\"mapping_source_".toList ++ pack_name_lower ++ "\">\n".toList ++
    (mapping_source_items entries).flatten ++ "</string-array>\n".toList

/-- The `replacement_{slug}` array generated per pack
(`prepare-iconpacks.py` lines 211-226). -/
def replacement_array (pack_name_lower : List Char) (entries : List PackEntry) : List Char :=
  "\n<string-array name=\"replacement_".toList ++ pack_name_lower ++ "\">\n".toList ++
    (replacement_items pack_name_lower entries).flatten ++ "</string-array>\n".toList

/-- The part of `array_updates` contributed by one pack: its three string
arrays, appended in generation order. -/
def pack_array_updates (pack : IconPack) : List Char :=
  let pack_name_lower := slugify pack.name
  index_array pack_name_lower ++ mapping_source_array pack_name_lower pack.entries ++
    replacement_array pack_name_lower pack.entries

/-- The `array_updates` accumulator of `update_arrays`
(`prepare-iconpacks.py` lines 184-226). -/
def array_updates (packs : List IconPack) : List Char :=
  packs.foldl (fun acc pack => acc ++ pack_array_updates pack) []

/-- The `<resources>` anchor of `update_arrays` (line 177). -/
def resources_open : List Char :=
  "<resources>".toList

/-- The `</resources>` anchor of `update_arrays` (line 178). -/
def resources_close : List Char :=
  "</resources>".toList

/-- Embedding of `update_arrays` from `prepare-iconpacks.py` lines 171-236, as a function
from the arrays-file content and the pack list to the written content; `none`
models `sys.exit(1)` before any write. -/
def update_arrays (arrays_content : List Char) (packs : List IconPack) : Option (List Char) :=
  match pyFind resources_open arrays_content, pyFind resources_close arrays_content with
  | some start_resources, some end_resources =>
    some (arrays_content.take (start_resources + resources_open.length) ++
      array_updates packs ++ arrays_content.drop end_resources)
  | _, _ => none

/-- The arrays file content after running `update_arrays` on it: unchanged on
the `sys.exit(1)` path, the spliced content otherwise. -/
def arrays_file_after (arrays_content : List Char) (packs : List IconPack) : List Char :=
  (update_arrays arrays_content packs).getD arrays_content


/-- The item-opening tag whose occurrences count the items of a generated
string array. -/
def itemTag : List Char :=
  "<item>".toList

/-- The array-opening tag whose occurrences count the generated string
arrays. -/
def strArrayTag : List Char :=
  "<string-array".toList

/-- No short proper suffix of `a` is a prefix of `sub`: an occurrence of `sub`
in `a ++ b` then never straddles the boundary, so occurrences split. -/
def noStraddle (sub a : List Char) : Prop :=
  ∀ k, k < a.length → a.length - k < sub.length → ¬ (a.drop k).isPrefixOf sub = true

instance (sub a : List Char) : Decidable (noStraddle sub a) :=
  inferInstanceAs (Decidable (∀ k, k < a.length → a.length - k < sub.length →
    ¬ (a.drop k).isPrefixOf sub = true))

/-! ### Substring search: `pyFind` agrees with substring occurrence -/

lemma hasSub_cons {sub t : List Char} (c : Char) (h : hasSub sub t) : hasSub sub (c :: t) := by
  obtain ⟨pre, post, rfl⟩ := h
  exact ⟨c :: pre, post, rfl⟩

lemma hasSub_of_pyFind_ne_none {sub s : List Char} (h : pyFind sub s ≠ none) : hasSub sub s := by
  induction s with
  | nil =>
    by_cases hp : sub.isPrefixOf ([] : List Char) = true
    · obtain ⟨t, ht⟩ := List.isPrefixOf_iff_prefix.mp hp
      obtain ⟨rfl, rfl⟩ := List.append_eq_nil.mp ht
      exact ⟨[], [], rfl⟩
    · exact absurd (by simp [pyFind, hp]) h
  | cons c t ih =>
    by_cases hp : sub.isPrefixOf (c :: t) = true
    · obtain ⟨tail, htail⟩ := List.isPrefixOf_iff_prefix.mp hp
      exact ⟨[], tail, by simp [htail]⟩
    · have hne : pyFind sub t ≠ none := by
        intro hnone
        exact h (by simp [pyFind, hp, hnone])
      exact hasSub_cons c (ih hne)

lemma pyFind_ne_none_of_hasSub {sub s : List Char} (h : hasSub sub s) : pyFind sub s ≠ none := by
  obtain ⟨pre, post, rfl⟩ := h
  induction pre with
  | nil =>
    have hp : sub.isPrefixOf (sub ++ post) = true :=
      List.isPrefixOf_iff_prefix.mpr (List.prefix_append sub post)
    show pyFind sub (sub ++ post) ≠ none
    cases hs : sub ++ post with
    | nil =>
      obtain ⟨rfl, rfl⟩ := List.append_eq_nil.mp hs
      decide
    | cons c t =>
      rw [hs] at hp
      simp [pyFind, hp]
  | cons c pre ih =>
    rw [List.cons_append, List.cons_append]
    cases hfind : pyFind sub (pre ++ sub ++ post) with
    | none => exact absurd hfind ih
    | some v =>
      simp only [pyFind, hfind]
      split <;> simp

lemma hasSub_iff_pyFind_ne_none (sub s : List Char) : hasSub sub s ↔ pyFind sub s ≠ none :=
  ⟨pyFind_ne_none_of_hasSub, hasSub_of_pyFind_ne_none⟩

/-! ### Claim C3: a missing marker aborts without writing -/

/-- C3: if either comment marker is absent from the manifest content, the
manifest update exits without writing, leaving the content unchanged; the same
holds for the arrays file and its `<resources>` anchors. -/
theorem missing_marker_no_write (m a : List Char) (packs : List IconPack) :
    ((¬ hasSub start_comment m ∨ ¬ hasSub end_comment m) →
      update_manifest m packs = none ∧ manifest_file_after m packs = m) ∧
    ((¬ hasSub resources_open a ∨ ¬ hasSub resources_close a) →
      update_arrays a packs = none ∧ arrays_file_after a packs = a) := by
  constructor
  · intro h
    have hnone : update_manifest m packs = none := by
      rcases h with h | h
      · have h0 : pyFind start_comment m = none := by
          by_contra hne
          exact h (hasSub_of_pyFind_ne_none hne)
        simp only [update_manifest, h0]
      · have h0 : pyFind end_comment m = none := by
          by_contra hne
          exact h (hasSub_of_pyFind_ne_none hne)
        simp only [update_manifest, h0]
        rcases pyFind start_comment m with _ | _ <;> rfl
    exact ⟨hnone, by simp only [manifest_file_after, hnone]; rfl⟩
  · intro h
    have hnone : update_arrays a packs = none := by
      rcases h with h | h
      · have h0 : pyFind resources_open a = none := by
          by_contra hne
          exact h (hasSub_of_pyFind_ne_none hne)
        simp only [update_arrays, h0]
      · have h0 : pyFind resources_close a = none := by
          by_contra hne
          exact h (hasSub_of_pyFind_ne_none hne)
        simp only [update_arrays, h0]
        rcases pyFind resources_open a with _ | _ <;> rfl
    exact ⟨hnone, by simp only [arrays_file_after, hnone]; rfl⟩

/-- Witness for C3 at a manifest and an arrays file that both lack their
markers. -/
theorem missing_marker_no_write_witness :
    (update_manifest "<manifest/>".toList [] = none ∧
      manifest_file_after "<manifest/>".toList [] = "<manifest/>".toList) ∧
    (update_arrays "<res/>".toList [] = none ∧
      arrays_file_after "<res/>".toList [] = "<res/>".toList) :=
  ⟨(missing_marker_no_write "<manifest/>".toList "<res/>".toList []).1
      (Or.inl (fun h => (pyFind_ne_none_of_hasSub h) (by decide))),
    (missing_marker_no_write "<manifest/>".toList "<res/>".toList []).2
      (Or.inl (fun h => (pyFind_ne_none_of_hasSub h) (by decide)))⟩

/-! ### Claim C6: package-name normalization -/

/-- C6: `normalize_package_name` maps the two special Android packages to their
aliases and leaves every other package name unchanged. -/
theorem normalize_package_name_spec :
    normalize_package_name "com.android.systemui".toList = "systemui".toList ∧
    normalize_package_name "com.android.settings".toList = "settings".toList ∧
    ∀ p : List Char, p ≠ "com.android.systemui".toList →
      p ≠ "com.android.settings".toList → normalize_package_name p = p :=
  ⟨by decide, by decide, fun p h1 h2 => by rw [normalize_package_name, if_neg h1, if_neg h2]⟩

/-- Witness for C6 at a package name that is not a special case. -/
theorem normalize_package_name_spec_witness :
    normalize_package_name "com.whatsapp".toList = "com.whatsapp".toList :=
  normalize_package_name_spec.2.2 "com.whatsapp".toList (by decide) (by decide)

/-! ### Claim C8: slugging is idempotent -/

lemma charLower_mem_cases (c : Char) :
    charLower c = c ∨ charLower c ∈ "abcdefghijklmnopqrstuvwxyz".toList := by
  unfold charLower
  cases hf : lowerPairs.find? (fun pr => pr.1 = c) with
  | none => left; rfl
  | some pr =>
    right
    have hmem : pr ∈ lowerPairs := List.mem_of_find?_eq_some hf
    show pr.2 ∈ "abcdefghijklmnopqrstuvwxyz".toList
    fin_cases hmem <;> decide

lemma charLower_of_mem_lower {c : Char} (h : c ∈ "abcdefghijklmnopqrstuvwxyz".toList) :
    charLower c = c := by
  fin_cases h <;> decide

lemma isAsciiAlnum_of_mem_lower {c : Char} (h : c ∈ "abcdefghijklmnopqrstuvwxyz".toList) :
    isAsciiAlnum c = true := by
  fin_cases h <;> decide

lemma subChar_idem (c : Char) : subChar (subChar c) = subChar c := by
  by_cases h : isAsciiAlnum c = true
  · simp [subChar, h]
  · rw [Bool.not_eq_true] at h
    have h2 : subChar c = '_' := by simp [subChar, h]
    rw [h2]
    decide

lemma charLower_subChar_charLower (c : Char) :
    charLower (subChar (charLower c)) = subChar (charLower c) := by
  rcases charLower_mem_cases c with h | h
  · rw [h]
    by_cases hc : isAsciiAlnum c = true
    · simpa [subChar, hc] using h
    · rw [Bool.not_eq_true] at hc
      have h2 : subChar c = '_' := by simp [subChar, hc]
      rw [h2]
      decide
  · rw [subChar, if_pos (isAsciiAlnum_of_mem_lower h)]
    exact charLower_of_mem_lower h

lemma slugChar_idem (c : Char) :
    subChar (charLower (subChar (charLower c))) = subChar (charLower c) := by
  rw [charLower_subChar_charLower, subChar_idem]

lemma slugify_cons (c : Char) (cs : List Char) :
    slugify (c :: cs) = subChar (charLower c) :: slugify cs := rfl

/-- C8: the pack-name slugging function (lowercase, then replace every
non-alphanumeric character with an underscore) is idempotent. -/
theorem slugify_idem (s : List Char) : slugify (slugify s) = slugify s := by
  induction s with
  | nil => rfl
  | cons c cs ih => rw [slugify_cons, slugify_cons, slugChar_idem, ih]

/-! ### Claim C4: the manifest splice -/

lemma foldl_append_flatten {α β : Type} (g : α → List β) (l : List α) (a : List β) :
    l.foldl (fun acc x => acc ++ g x) a = a ++ (l.map g).flatten := by
  induction l generalizing a with
  | nil => simp
  | cons x xs ih => simp [ih, List.append_assoc]

lemma pyFind_eq_some_of (sub s : List Char) (n : Nat)
    (hbefore : ∀ k, k < n → ¬ sub.isPrefixOf (s.drop k) = true)
    (hat : sub.isPrefixOf (s.drop n) = true) : pyFind sub s = some n := by
  induction n generalizing s with
  | zero =>
    rw [List.drop_zero] at hat
    cases s with
    | nil => simp [pyFind, hat]
    | cons c t => simp [pyFind, hat]
  | succ n ih =>
    cases s with
    | nil =>
      exact absurd hat (by simpa using hbefore 0 (Nat.succ_pos n))
    | cons c t =>
      have h0 : ¬ sub.isPrefixOf (c :: t) = true := by
        simpa using hbefore 0 (Nat.succ_pos n)
      have ht : pyFind sub t = some n := by
        apply ih t
        · intro k hk
          simpa using hbefore (k + 1) (by omega)
        · simpa using hat
      simp [pyFind, h0, ht]

/-- C4: when the manifest content decomposes around the first occurrences of
the two comment markers, the update replaces exactly the span between them with
one activity block per pack, in pack-enumeration order, and preserves every
character up to and including the start marker and from the end marker on. -/
theorem manifest_splice (pre mid post : List Char) (packs : List IconPack)
    (hstart : ∀ k, k < pre.length →
      ¬ start_comment.isPrefixOf ((pre ++ start_comment ++ mid ++ end_comment ++ post).drop k) = true)
    (hend : ∀ k, k < pre.length + start_comment.length + mid.length →
      ¬ end_comment.isPrefixOf ((pre ++ start_comment ++ mid ++ end_comment ++ post).drop k) = true) :
    update_manifest (pre ++ start_comment ++ mid ++ end_comment ++ post) packs
      = some (pre ++ start_comment ++ activities packs ++ end_comment ++ post) ∧
    activities packs = (packs.map (fun pack => activity_block pack.name)).flatten ∧
    (packs.map (fun pack => activity_block pack.name)).length = packs.length := by
  refine ⟨?_, ?_, by simp⟩
  · have h1 : pyFind start_comment (pre ++ start_comment ++ mid ++ end_comment ++ post)
        = some pre.length := by
      apply pyFind_eq_some_of _ _ _ hstart
      have hc : pre ++ start_comment ++ mid ++ end_comment ++ post
          = pre ++ (start_comment ++ (mid ++ (end_comment ++ post))) := by
        simp [List.append_assoc]
      rw [hc, List.drop_left]
      exact List.isPrefixOf_iff_prefix.mpr (List.prefix_append _ _)
    have h2 : pyFind end_comment (pre ++ start_comment ++ mid ++ end_comment ++ post)
        = some (pre.length + start_comment.length + mid.length) := by
      apply pyFind_eq_some_of _ _ _ hend
      have hc : pre ++ start_comment ++ mid ++ end_comment ++ post
          = (pre ++ start_comment ++ mid) ++ (end_comment ++ post) := by
        simp [List.append_assoc]
      have hlen : pre.length + start_comment.length + mid.length
          = (pre ++ start_comment ++ mid).length := by
        simp only [List.length_append]
      rw [hc, hlen, List.drop_left]
      exact List.isPrefixOf_iff_prefix.mpr (List.prefix_append _ _)
    simp only [update_manifest, h1, h2]
    have htake : (pre ++ start_comment ++ mid ++ end_comment ++ post).take
        (pre.length + start_comment.length) = pre ++ start_comment := by
      have hc : pre ++ start_comment ++ mid ++ end_comment ++ post
          = (pre ++ start_comment) ++ (mid ++ (end_comment ++ post)) := by
        simp [List.append_assoc]
      have hlen : pre.length + start_comment.length = (pre ++ start_comment).length := by
        simp only [List.length_append]
      rw [hc, hlen, List.take_left]
    have hdrop : (pre ++ start_comment ++ mid ++ end_comment ++ post).drop
        (pre.length + start_comment.length + mid.length) = end_comment ++ post := by
      have hc : pre ++ start_comment ++ mid ++ end_comment ++ post
          = (pre ++ start_comment ++ mid) ++ (end_comment ++ post) := by
        simp [List.append_assoc]
      have hlen : pre.length + start_comment.length + mid.length
          = (pre ++ start_comment ++ mid).length := by
        simp only [List.length_append]
      rw [hc, hlen, List.drop_left]
    rw [htake, hdrop]
    simp [List.append_assoc]
  · simpa using foldl_append_flatten (fun pack => activity_block pack.name) packs []

/-- Witness for C4 on a two-pack manifest with surrounding content. -/
theorem manifest_splice_witness :
    update_manifest ("<m>".toList ++ start_comment ++ "old".toList ++ end_comment ++ "</m>".toList)
        [⟨"A B".toList, []⟩, ⟨"Just".toList, []⟩]
      = some ("<m>".toList ++ start_comment ++
          activities [⟨"A B".toList, []⟩, ⟨"Just".toList, []⟩] ++ end_comment ++ "</m>".toList) ∧
    activities [⟨"A B".toList, []⟩, ⟨"Just".toList, []⟩]
      = ((([⟨"A B".toList, []⟩, ⟨"Just".toList, []⟩] : List IconPack)).map
          (fun pack => activity_block pack.name)).flatten ∧
    ((([⟨"A B".toList, []⟩, ⟨"Just".toList, []⟩] : List IconPack)).map
        (fun pack => activity_block pack.name)).length = 2 :=
  manifest_splice "<m>".toList "old".toList "</m>".toList
    [⟨"A B".toList, []⟩, ⟨"Just".toList, []⟩] (by decide) (by decide)

/-! ### The regex substitution: claims C9, C10 -/

lemma matchAt_some_pat {s : List Char} {pr : List Char × List Char}
    (h : matchAt s = some pr) : drawablePat.isPrefixOf s = true := by
  by_cases hp : drawablePat.isPrefixOf s = true
  · exact hp
  · simp [matchAt, hp] at h

lemma replaceAux_nil (package_name pack_name_lower : List Char) (fuel : Nat) :
    replaceAux package_name pack_name_lower fuel [] = [] := by
  cases fuel <;> rfl

lemma replaceAux_of_no_sub (package_name pack_name_lower : List Char) :
    ∀ (fuel : Nat) (s : List Char), ¬ hasSub drawablePat s →
      replaceAux package_name pack_name_lower fuel s = s := by
  intro fuel
  induction fuel with
  | zero => intro s _; rfl
  | succ fuel ih =>
    intro s h
    cases s with
    | nil => rfl
    | cons c cs =>
      cases hm : matchAt (c :: cs) with
      | some pr =>
        exfalso
        apply h
        obtain ⟨t, ht⟩ := List.isPrefixOf_iff_prefix.mp (matchAt_some_pat hm)
        exact ⟨[], t, by simp [ht]⟩
      | none =>
        simp only [replaceAux, hm]
        rw [ih cs (fun hs => h (hasSub_cons c hs))]

/-- A content without any occurrence of the literal `@drawable/` is left
untouched by the substitution. -/
lemma replace_no_ref (package_name pack_name_lower content : List Char)
    (h : ¬ hasSub drawablePat content) :
    replace_drawable_references package_name pack_name_lower content = content :=
  replaceAux_of_no_sub package_name pack_name_lower content.length content h

/-- C9: every write-back performed by `update_drawable_references` is on an
`.xml` file whose substituted content actually differs from the original, and
such a file necessarily contains a `@drawable/` occurrence; hence files without
references, and non-XML files, are never written. -/
theorem update_drawable_references_writes (packs : List IconPack) (n c : List Char)
    (h : (n, c) ∈ update_drawable_references packs) :
    ∃ pack ∈ packs, ∃ e ∈ pack.entries, e.isDir = true ∧ ∃ f ∈ e.files,
      f.name = n ∧ pyLower (splitext f.name).2 = ".xml".toList ∧
      c = replace_drawable_references (normalize_package_name e.name)
            (slugify pack.name) f.content ∧
      c ≠ f.content ∧ hasSub drawablePat f.content := by
  simp only [update_drawable_references, List.mem_flatMap] at h
  obtain ⟨pack, hpack, h⟩ := h
  obtain ⟨e, he, h⟩ := h
  by_cases hdir : e.isDir = true
  · rw [if_pos hdir] at h
    rw [List.mem_filterMap] at h
    obtain ⟨f, hf, heq⟩ := h
    by_cases h1 : VALID_DRAWABLE_EXTENSIONS.contains (pyLower (splitext f.name).2) = true
    · rw [if_pos h1] at heq
      by_cases h2 : pyLower (splitext f.name).2 = ".xml".toList
      · rw [if_pos h2] at heq
        by_cases h3 : replace_drawable_references (normalize_package_name e.name)
            (slugify pack.name) f.content = f.content
        · rw [if_neg (by simp [h3])] at heq
          exact absurd heq (by simp)
        · rw [if_pos h3] at heq
          simp only [Option.some.injEq, Prod.mk.injEq] at heq
          obtain ⟨hn, hc⟩ := heq
          refine ⟨pack, hpack, e, he, hdir, f, hf, hn, h2, hc.symm, ?_, ?_⟩
          · rw [← hc]; exact h3
          · by_contra hno
            exact h3 (replace_no_ref _ _ _ hno)
      · rw [if_neg h2] at heq
        exact absurd heq (by simp)
    · rw [if_neg h1] at heq
      exact absurd heq (by simp)
  · simp [hdir] at h

/-- Witness for C9: a pack with one XML file containing one reference. -/
theorem update_drawable_references_writes_witness :
    (("a.xml".toList, "@drawable/ic_q_p".toList) ∈
      update_drawable_references
        [⟨"P".toList, [⟨"q".toList, true, [⟨"a.xml".toList, "@drawable/ic".toList⟩]⟩]⟩]) ∧
    (∃ pack ∈ ([⟨"P".toList, [⟨"q".toList, true,
          [⟨"a.xml".toList, "@drawable/ic".toList⟩]⟩]⟩] : List IconPack),
      ∃ e ∈ pack.entries, e.isDir = true ∧ ∃ f ∈ e.files,
        f.name = "a.xml".toList ∧ pyLower (splitext f.name).2 = ".xml".toList ∧
        "@drawable/ic_q_p".toList = replace_drawable_references
          (normalize_package_name e.name) (slugify pack.name) f.content ∧
        "@drawable/ic_q_p".toList ≠ f.content ∧ hasSub drawablePat f.content) :=
  ⟨by decide,
    update_drawable_references_writes
      [⟨"P".toList, [⟨"q".toList, true, [⟨"a.xml".toList, "@drawable/ic".toList⟩]⟩]⟩]
      "a.xml".toList "@drawable/ic_q_p".toList (by decide)⟩

lemma matchAt_full {name : List Char} (hne : name ≠ [])
    (hw : ∀ ch ∈ name, isWordChar ch = true) :
    matchAt (drawablePat ++ name) = some (name, []) := by
  have hp : drawablePat.isPrefixOf (drawablePat ++ name) = true :=
    List.isPrefixOf_iff_prefix.mpr (List.prefix_append _ _)
  simp only [matchAt, hp, if_true, List.drop_left]
  rw [List.takeWhile_eq_self_iff.mpr hw, List.dropWhile_eq_nil_iff.mpr hw]
  rw [if_neg (by simpa [List.isEmpty_iff] using hne)]

lemma replaceAux_single (package_name pack_name_lower name : List Char) (fuel : Nat)
    (hne : name ≠ []) (hw : ∀ ch ∈ name, isWordChar ch = true) :
    replaceAux package_name pack_name_lower (fuel + 1) (drawablePat ++ name)
      = drawableRepl package_name pack_name_lower name := by
  have hsplit : drawablePat ++ name = '@' :: ("drawable/".toList ++ name) := rfl
  rw [hsplit]
  simp only [replaceAux]
  rw [← hsplit, matchAt_full hne hw]
  simp [replaceAux_nil]

lemma replace_single (package_name pack_name_lower name : List Char)
    (hne : name ≠ []) (hw : ∀ ch ∈ name, isWordChar ch = true) :
    replace_drawable_references package_name pack_name_lower (drawablePat ++ name)
      = drawableRepl package_name pack_name_lower name := by
  unfold replace_drawable_references
  obtain ⟨k, hk⟩ : ∃ k, (drawablePat ++ name).length = k + 1 :=
    ⟨9 + name.length, by simp [drawablePat, List.length_append]; omega⟩
  rw [hk]
  exact replaceAux_single package_name pack_name_lower name k hne hw

/-- C10: the substitution appends `_package_slug` to every matched reference
unconditionally (the function never consults the file system), and is not
idempotent: a second application appends the suffix a second time. -/
theorem replace_unconditional_not_idem (package_name pack_name_lower name : List Char)
    (hne : name ≠ []) (hw : ∀ ch ∈ name, isWordChar ch = true)
    (hwp : ∀ ch ∈ package_name, isWordChar ch = true)
    (hwq : ∀ ch ∈ pack_name_lower, isWordChar ch = true) :
    replace_drawable_references package_name pack_name_lower (drawablePat ++ name)
      = drawablePat ++ name ++ ('_' :: package_name) ++ ('_' :: pack_name_lower) ∧
    replace_drawable_references package_name pack_name_lower
        (replace_drawable_references package_name pack_name_lower (drawablePat ++ name))
      = drawablePat ++ (name ++ ('_' :: package_name) ++ ('_' :: pack_name_lower))
          ++ ('_' :: package_name) ++ ('_' :: pack_name_lower) ∧
    replace_drawable_references package_name pack_name_lower
        (replace_drawable_references package_name pack_name_lower (drawablePat ++ name))
      ≠ replace_drawable_references package_name pack_name_lower (drawablePat ++ name) := by
  have h1 : replace_drawable_references package_name pack_name_lower (drawablePat ++ name)
      = drawableRepl package_name pack_name_lower name := replace_single _ _ _ hne hw
  have hname2 : name ++ ('_' :: package_name) ++ ('_' :: pack_name_lower) ≠ [] := by
    simp
  have hw2 : ∀ ch ∈ name ++ ('_' :: package_name) ++ ('_' :: pack_name_lower),
      isWordChar ch = true := by
    intro ch hch
    simp only [List.mem_append, List.mem_cons] at hch
    rcases hch with (hch | hch) | hch
    · exact hw ch hch
    · rcases hch with rfl | hch
      · decide
      · exact hwp ch hch
    · rcases hch with rfl | hch
      · decide
      · exact hwq ch hch
  have hrepl : drawableRepl package_name pack_name_lower name
      = drawablePat ++ (name ++ ('_' :: package_name) ++ ('_' :: pack_name_lower)) := by
    simp [drawableRepl, List.append_assoc]
  have h2 : replace_drawable_references package_name pack_name_lower
      (drawableRepl package_name pack_name_lower name)
      = drawableRepl package_name pack_name_lower
          (name ++ ('_' :: package_name) ++ ('_' :: pack_name_lower)) := by
    rw [hrepl]
    exact replace_single _ _ _ hname2 hw2
  refine ⟨by rw [h1]; simp [drawableRepl, List.append_assoc], ?_, ?_⟩
  · rw [h1, h2]
    simp [drawableRepl, List.append_assoc]
  · rw [h1, h2]
    intro heq
    have hlen := congrArg List.length heq
    simp [drawableRepl, List.length_append] at hlen

/-- Witness for C10 at a concrete reference, package and slug. -/
theorem replace_unconditional_not_idem_witness :
    replace_drawable_references "systemui".toList "pack1".toList
        (drawablePat ++ "icon".toList)
      = drawablePat ++ "icon".toList ++ ('_' :: "systemui".toList)
          ++ ('_' :: "pack1".toList) ∧
    replace_drawable_references "systemui".toList "pack1".toList
        (replace_drawable_references "systemui".toList "pack1".toList
          (drawablePat ++ "icon".toList))
      = drawablePat ++ ("icon".toList ++ ('_' :: "systemui".toList)
          ++ ('_' :: "pack1".toList)) ++ ('_' :: "systemui".toList)
          ++ ('_' :: "pack1".toList) ∧
    replace_drawable_references "systemui".toList "pack1".toList
        (replace_drawable_references "systemui".toList "pack1".toList
          (drawablePat ++ "icon".toList))
      ≠ replace_drawable_references "systemui".toList "pack1".toList
          (drawablePat ++ "icon".toList) :=
  replace_unconditional_not_idem "systemui".toList "pack1".toList "icon".toList
    (by decide) (by decide) (by decide) (by decide)

/-! ### `splitext` on a name with an appended extension -/

lemma lastIdx_append_some {c : Char} {ys : List Char} {i : Nat}
    (h : lastIdx c ys = some i) (xs : List Char) :
    lastIdx c (xs ++ ys) = some (xs.length + i) := by
  induction xs with
  | nil => simpa using h
  | cons x xt ih =>
    rw [List.cons_append]
    simp only [lastIdx, ih]
    simp only [List.length_cons]
    congr 1
    omega

lemma splitext_word_xml {name : List Char} (hne : name ≠ [])
    (hw : ∀ ch ∈ name, isWordChar ch = true) :
    splitext (name ++ ".xml".toList) = (name, ".xml".toList) := by
  have hlast : lastIdx '.' (name ++ ".xml".toList) = some name.length := by
    have h0 : lastIdx '.' ".xml".toList = some 0 := by decide
    simpa using lastIdx_append_some h0 name
  have hany : (name ++ ".xml".toList).take name.length = name := List.take_left name _
  have hdrop : (name ++ ".xml".toList).drop name.length = ".xml".toList := List.drop_left name _
  obtain ⟨ch, rest, rfl⟩ := List.exists_cons_of_ne_nil hne
  have hch : ch ≠ '.' := by
    intro hc
    have := hw ch (List.mem_cons_self ch rest)
    rw [hc] at this
    exact absurd this (by decide)
  simp only [splitext, hlast, hany, hdrop]
  rw [if_pos]
  simp [hch]

/-! ### Claim C2: rewritten references versus renamed files -/

/-- Counterexample to C2 as stated: for the (non-special, mixed-case) package
`Foo` inside pack `MyPack`, the rewriter produces `icon_Foo_mypack` while the
copy step names the file `icon_foo_mypack.xml`, so the rewritten reference does
not match the copied base name. -/
theorem reference_rewrite_counterexample :
    replace_drawable_references (normalize_package_name "Foo".toList)
        (slugify "MyPack".toList) "@drawable/icon".toList
      = "@drawable/icon_Foo_mypack".toList ∧
    copy_and_rename_files
        [⟨"MyPack".toList, [⟨"Foo".toList, true, [⟨"icon.xml".toList, []⟩]⟩]⟩]
      = ["icon_foo_mypack.xml".toList] ∧
    replace_drawable_references (normalize_package_name "Foo".toList)
        (slugify "MyPack".toList) "@drawable/icon".toList
      ≠ drawablePat ++ "icon_foo_mypack".toList := by
  decide

/-- C2 (amended): whenever the normalized package name is lowercase-stable
(`package_name.lower() == package_name`, true of every real Android package
the scripts target), the rewritten `@drawable/` reference points exactly at
the base name under which the copy step stores a drawable of that package and
pack; in general the rewriter omits the lowercasing the copy step applies. -/
theorem reference_rewrite_matches_rename (pack_name package_name name content : List Char)
    (hne : name ≠ []) (hw : ∀ ch ∈ name, isWordChar ch = true)
    (hlow : pyLower (normalize_package_name package_name) = normalize_package_name package_name) :
    replace_drawable_references (normalize_package_name package_name) (slugify pack_name)
        (drawablePat ++ name)
      = drawablePat ++ ((splitext (name ++ ".xml".toList)).1
          ++ ('_' :: pyLower (normalize_package_name package_name))
          ++ ('_' :: slugify pack_name)) ∧
    copy_and_rename_files
        [⟨pack_name, [⟨package_name, true, [⟨name ++ ".xml".toList, content⟩]⟩]⟩]
      = [(splitext (name ++ ".xml".toList)).1
          ++ ('_' :: pyLower (normalize_package_name package_name))
          ++ ('_' :: slugify pack_name) ++ pyLower (splitext (name ++ ".xml".toList)).2] := by
  have hsp := splitext_word_xml hne hw
  constructor
  · rw [replace_single _ _ _ hne hw, hsp, hlow]
    simp [drawableRepl, List.append_assoc]
  · have hq : VALID_DRAWABLE_EXTENSIONS.contains
        (pyLower (splitext (name ++ ".xml".toList)).2) = true := by
      rw [hsp]
      show VALID_DRAWABLE_EXTENSIONS.contains (pyLower ".xml".toList) = true
      decide
    simp only [copy_and_rename_files, List.flatMap_cons, List.flatMap_nil,
      List.append_nil, if_pos]
    rw [List.filterMap_cons]
    simp only [hq, if_true, List.filterMap_nil]

/-- Witness for C2 (amended) at pack `MyPack`, package `com.android.systemui`,
drawable `icon`. -/
theorem reference_rewrite_matches_rename_witness :
    replace_drawable_references (normalize_package_name "com.android.systemui".toList)
        (slugify "MyPack".toList) (drawablePat ++ "icon".toList)
      = drawablePat ++ ((splitext ("icon".toList ++ ".xml".toList)).1
          ++ ('_' :: pyLower (normalize_package_name "com.android.systemui".toList))
          ++ ('_' :: slugify "MyPack".toList)) ∧
    copy_and_rename_files
        [⟨"MyPack".toList, [⟨"com.android.systemui".toList, true,
          [⟨"icon".toList ++ ".xml".toList, []⟩]⟩]⟩]
      = [(splitext ("icon".toList ++ ".xml".toList)).1
          ++ ('_' :: pyLower (normalize_package_name "com.android.systemui".toList))
          ++ ('_' :: slugify "MyPack".toList)
          ++ pyLower (splitext ("icon".toList ++ ".xml".toList)).2] :=
  reference_rewrite_matches_rename "MyPack".toList "com.android.systemui".toList
    "icon".toList [] (by decide) (by decide) (by decide)

/-! ### Claim C1: the generated filename -/

/-- Counterexample to C1 as stated: for pack `Pack`, package `Com.Example`,
file `icon.XML`, the copy step generates `icon_com.example_pack.xml` (package
lowercased, extension lowercased), not the claimed
`icon_Com.Example_pack.XML`. -/
theorem copy_name_counterexample :
    copy_and_rename_files
        [⟨"Pack".toList, [⟨"Com.Example".toList, true, [⟨"icon.XML".toList, []⟩]⟩]⟩]
      = ["icon_com.example_pack.xml".toList] ∧
    claimed_file_name "Pack".toList "Com.Example".toList "icon.XML".toList
      = "icon_Com.Example_pack.XML".toList ∧
    claimed_file_name "Pack".toList "Com.Example".toList "icon.XML".toList
      ∉ copy_and_rename_files
        [⟨"Pack".toList, [⟨"Com.Example".toList, true, [⟨"icon.XML".toList, []⟩]⟩]⟩] := by
  decide

/-- C1 (amended): for every qualifying resource file, the copy step generates
exactly `basename + '_' + lower(normalizedPackage) + '_' + slug(pack) +
lower(extension)`. -/
theorem copy_generates_name (packs : List IconPack) (pack : IconPack) (e : PackEntry)
    (f : PFile) (hpack : pack ∈ packs) (he : e ∈ pack.entries) (hdir : e.isDir = true)
    (hf : f ∈ e.files) (hq : qualifies f.name = true) :
    ((splitext f.name).1 ++ ('_' :: pyLower (normalize_package_name e.name))
      ++ ('_' :: slugify pack.name) ++ pyLower (splitext f.name).2)
      ∈ copy_and_rename_files packs := by
  simp only [copy_and_rename_files, List.mem_flatMap]
  refine ⟨pack, hpack, e, he, ?_⟩
  rw [if_pos hdir, List.mem_filterMap]
  refine ⟨f, hf, ?_⟩
  have hq' : VALID_DRAWABLE_EXTENSIONS.contains (pyLower (splitext f.name).2) = true := hq
  rw [if_pos hq']

/-- Witness for C1 (amended): the mixed-case file of the counterexample is
generated under its lowercased composed name. -/
theorem copy_generates_name_witness :
    ((splitext "icon.XML".toList).1
      ++ ('_' :: pyLower (normalize_package_name "Com.Example".toList))
      ++ ('_' :: slugify "Pack".toList) ++ pyLower (splitext "icon.XML".toList).2)
      ∈ copy_and_rename_files
        [⟨"Pack".toList, [⟨"Com.Example".toList, true, [⟨"icon.XML".toList, []⟩]⟩]⟩] :=
  copy_generates_name
    [⟨"Pack".toList, [⟨"Com.Example".toList, true, [⟨"icon.XML".toList, []⟩]⟩]⟩]
    ⟨"Pack".toList, [⟨"Com.Example".toList, true, [⟨"icon.XML".toList, []⟩]⟩]⟩
    ⟨"Com.Example".toList, true, [⟨"icon.XML".toList, []⟩]⟩
    ⟨"icon.XML".toList, []⟩ (by decide) (by decide) (by decide) (by decide) (by decide)

/-! ### Claim C7: the extension whitelists -/

lemma filterMap_if {α β : Type} (l : List α) (p : α → Bool) (g : α → β) :
    l.filterMap (fun a => if p a = true then some (g a) else none)
      = (l.filter p).map g := by
  induction l with
  | nil => rfl
  | cons x xs ih =>
    by_cases hx : p x = true
    · simp [List.filterMap_cons, List.filter_cons, hx, ih]
    · simp [List.filterMap_cons, List.filter_cons, hx, ih]

/-- Counterexample to C7 as stated: a `.webp` file has a whitelisted extension
per the claim (and `prepare-iconpacks.py` copies it), yet the copy stage of
`automate_iconpacks.py` skips it. -/
theorem webp_counterexample :
    qualifies "a.webp".toList = true ∧
    copy_and_rename_files
        [⟨"P".toList, [⟨"q".toList, true, [⟨"a.webp".toList, []⟩]⟩]⟩]
      = ["a_q_p.webp".toList] ∧
    automate_copy_and_rename_files
        [⟨"P".toList, [⟨"q".toList, true, [⟨"a.webp".toList, []⟩]⟩]⟩]
      = [] := by
  decide

/-- C7 (amended): `prepare-iconpacks.py` processes exactly the files whose
lowercased extension lies in `{.xml, .png, .jpg, .jpeg, .webp}` — its copy
stage is the whitelist filter followed by the renaming map — while
`automate_iconpacks.py` uses the whitelist without `.webp`; the automate
whitelist is strictly contained in the prepare one. -/
theorem extension_whitelists (packs : List IconPack) :
    copy_and_rename_files packs
      = packs.flatMap (fun pack => pack.entries.flatMap (fun e =>
          if e.isDir = true then
            ((e.files.map PFile.name).filter qualifies).map (fun fn =>
              (splitext fn).1 ++ ('_' :: pyLower (normalize_package_name e.name))
                ++ ('_' :: slugify pack.name) ++ pyLower (splitext fn).2)
          else [])) ∧
    automate_copy_and_rename_files packs
      = packs.flatMap (fun pack => pack.entries.flatMap (fun e =>
          if e.isDir = true then
            ((e.files.map PFile.name).filter qualifiesAutomate).map (fun fn =>
              (splitext fn).1 ++ ('_' :: pyLower (normalize_package_name e.name))
                ++ ('_' :: slugify pack.name) ++ pyLower (splitext fn).2)
          else [])) ∧
    (∀ fn : List Char, qualifiesAutomate fn = true → qualifies fn = true) := by
  refine ⟨?_, ?_, ?_⟩
  · simp only [copy_and_rename_files]
    congr 1
    funext pack
    congr 1
    funext e
    by_cases hdir : e.isDir = true
    · rw [if_pos hdir, if_pos hdir]
      rw [show (fun f : PFile =>
            if VALID_DRAWABLE_EXTENSIONS.contains (pyLower (splitext f.name).2) = true then
              some ((splitext f.name).1 ++ ('_' :: pyLower (normalize_package_name e.name))
                ++ ('_' :: slugify pack.name) ++ pyLower (splitext f.name).2)
            else none)
          = (fun f : PFile => if qualifies f.name = true then
              some ((splitext f.name).1 ++ ('_' :: pyLower (normalize_package_name e.name))
                ++ ('_' :: slugify pack.name) ++ pyLower (splitext f.name).2)
            else none) from rfl]
      rw [filterMap_if, List.filter_map, List.map_map]
      rfl
    · rw [if_neg hdir, if_neg hdir]
  · simp only [automate_copy_and_rename_files]
    congr 1
    funext pack
    congr 1
    funext e
    by_cases hdir : e.isDir = true
    · rw [if_pos hdir, if_pos hdir]
      rw [show (fun f : PFile =>
            if AUTOMATE_EXTENSIONS.contains (pyLower (splitext f.name).2) = true then
              some ((splitext f.name).1 ++ ('_' :: pyLower
                  (if e.name = "com.android.systemui".toList then "systemui".toList
                   else if e.name = "com.android.settings".toList then "settings".toList
                   else e.name))
                ++ ('_' :: slugify pack.name) ++ pyLower (splitext f.name).2)
            else none)
          = (fun f : PFile => if qualifiesAutomate f.name = true then
              some ((splitext f.name).1 ++ ('_' :: pyLower (normalize_package_name e.name))
                ++ ('_' :: slugify pack.name) ++ pyLower (splitext f.name).2)
            else none) from rfl]
      rw [filterMap_if, List.filter_map, List.map_map]
      rfl
    · rw [if_neg hdir, if_neg hdir]
  · intro fn h
    simp only [qualifiesAutomate, AUTOMATE_EXTENSIONS, List.contains_cons,
      List.contains_nil, Bool.or_eq_true, beq_iff_eq] at h
    simp only [qualifies, VALID_DRAWABLE_EXTENSIONS, List.contains_cons,
      List.contains_nil, Bool.or_eq_true, beq_iff_eq]
    tauto

/-- Witness for C7 (amended): the inclusion of the whitelists applied to a
concrete `.png` file. -/
theorem extension_whitelists_witness :
    qualifies "b.png".toList = true :=
  (extension_whitelists []).2.2 "b.png".toList (by decide)

/-! ### Counting tag occurrences: claim C5 -/

lemma prefix_append_iff_of_le {sub x : List Char} (b : List Char)
    (h : sub.length ≤ x.length) : sub <+: (x ++ b) ↔ sub <+: x := by
  rw [List.prefix_iff_eq_take, List.prefix_iff_eq_take, List.take_append_of_le_length h]

lemma isPrefixOf_append_left {sub x : List Char} (b : List Char)
    (h : sub.length ≤ x.length) : sub.isPrefixOf (x ++ b) = sub.isPrefixOf x := by
  rw [Bool.eq_iff_iff, List.isPrefixOf_iff_prefix, List.isPrefixOf_iff_prefix]
  exact prefix_append_iff_of_le b h

lemma flip_prefix_of_append {sub x b : List Char} (h : x.length ≤ sub.length)
    (hp : sub <+: (x ++ b)) : x <+: sub := by
  rw [List.prefix_iff_eq_take] at hp
  rw [List.take_append_eq_append_take, List.take_of_length_le h] at hp
  exact ⟨(b.take (sub.length - x.length)), hp.symm⟩

lemma countSub_append (sub a b : List Char) (h : noStraddle sub a) :
    countSub sub (a ++ b) = countSub sub a + countSub sub b := by
  induction a with
  | nil => simp [countSub]
  | cons c a' ih =>
    have h' : noStraddle sub a' := by
      intro k hk hlen hp
      refine h (k + 1) ?_ ?_ ?_
      · simp only [List.length_cons]; omega
      · simp only [List.length_cons]; omega
      · simpa using hp
    have hhead : (if sub.isPrefixOf ((c :: a') ++ b) then 1 else 0)
        = (if sub.isPrefixOf (c :: a') then 1 else 0) := by
      by_cases hcase : sub.length ≤ (c :: a').length
      · rw [isPrefixOf_append_left b hcase]
      · have hfalse1 : ¬ sub.isPrefixOf (c :: a') = true := by
          intro hp
          exact hcase (List.IsPrefix.length_le (List.isPrefixOf_iff_prefix.mp hp))
        have hcase' : a'.length + 1 < sub.length := by
          simp only [List.length_cons] at hcase
          omega
        have hfalse2 : ¬ sub.isPrefixOf ((c :: a') ++ b) = true := by
          intro hp
          have hflip : (c :: a') <+: sub :=
            flip_prefix_of_append (by simp only [List.length_cons]; omega)
              (List.isPrefixOf_iff_prefix.mp hp)
          refine h 0 (by simp) ?_ ?_
          · simp only [List.length_cons, Nat.sub_zero]
            omega
          · rw [List.drop_zero]
            exact List.isPrefixOf_iff_prefix.mpr hflip
        rw [if_neg hfalse1, if_neg hfalse2]
    calc countSub sub ((c :: a') ++ b)
        = (if sub.isPrefixOf ((c :: a') ++ b) then 1 else 0) + countSub sub (a' ++ b) := rfl
      _ = (if sub.isPrefixOf (c :: a') then 1 else 0) + (countSub sub a' + countSub sub b) := by
          rw [hhead, ih h']
      _ = countSub sub (c :: a') + countSub sub b := by
          show _ = (if sub.isPrefixOf (c :: a') then 1 else 0) + countSub sub a' + countSub sub b
          omega

lemma noStraddle_nil (sub : List Char) : noStraddle sub [] := by
  intro k hk
  simp at hk

lemma drop_ne_nil_of_lt {a : List Char} {k : Nat} (hk : k < a.length) : a.drop k ≠ [] := by
  intro h0
  have := congrArg List.length h0
  simp only [List.length_drop, List.length_nil] at this
  omega

lemma noStraddle_of_not_mem {c0 : Char} {rest a : List Char} (h : c0 ∉ a) :
    noStraddle (c0 :: rest) a := by
  intro k hk _ hp
  obtain ⟨d, dt, hd⟩ := List.exists_cons_of_ne_nil (drop_ne_nil_of_lt hk)
  rw [hd] at hp
  obtain ⟨t, ht⟩ := List.isPrefixOf_iff_prefix.mp hp
  rw [List.cons_append] at ht
  injection ht with h1 _
  apply h
  have hmem : d ∈ a.drop k := by
    rw [hd]
    exact List.mem_cons_self d dt
  exact h1 ▸ List.mem_of_mem_drop hmem

lemma countSub_eq_zero_of_not_mem {c0 : Char} {rest a : List Char} (h : c0 ∉ a) :
    countSub (c0 :: rest) a = 0 := by
  induction a with
  | nil => rfl
  | cons x xs ih =>
    have hx : ¬ (c0 :: rest).isPrefixOf (x :: xs) = true := by
      intro hp
      obtain ⟨t, ht⟩ := List.isPrefixOf_iff_prefix.mp hp
      rw [List.cons_append] at ht
      injection ht with h1 _
      exact h (h1 ▸ List.mem_cons_self x xs)
    have hxs : c0 ∉ xs := fun hm => h (List.mem_cons_of_mem x hm)
    simp [countSub, hx, ih hxs]

lemma noStraddle_append {sub x y : List Char} (hx : noStraddle sub x)
    (hy : noStraddle sub y) : noStraddle sub (x ++ y) := by
  intro k hk hlen hp
  rw [List.length_append] at hk hlen
  by_cases hky : x.length ≤ k
  · have hdrop : (x ++ y).drop k = y.drop (k - x.length) := by
      rw [List.drop_append_eq_append_drop, List.drop_eq_nil_of_le hky, List.nil_append]
    rw [hdrop] at hp
    refine hy (k - x.length) (by omega) (by omega) hp
  · have hdrop : (x ++ y).drop k = x.drop k ++ y := by
      rw [List.drop_append_eq_append_drop, show k - x.length = 0 by omega, List.drop_zero]
    rw [hdrop] at hp
    have hp' : (x.drop k).isPrefixOf sub = true := by
      have h1 := List.isPrefixOf_iff_prefix.mp hp
      exact List.isPrefixOf_iff_prefix.mpr ((List.prefix_append _ _).trans h1)
    have hlensub : (x.drop k ++ y).length ≤ sub.length :=
      List.IsPrefix.length_le (List.isPrefixOf_iff_prefix.mp hp)
    rw [List.length_append, List.length_drop] at hlensub
    exact hx k (by omega) (by omega) hp'

lemma countSub_flatten (sub : List Char) (n : Nat) (l : List (List Char))
    (h : ∀ x ∈ l, countSub sub x = n ∧ noStraddle sub x) :
    countSub sub l.flatten = n * l.length := by
  induction l with
  | nil => simp [countSub]
  | cons x xs ih =>
    rw [List.flatten_cons]
    rw [countSub_append sub x xs.flatten (h x (List.mem_cons_self x xs)).2]
    rw [(h x (List.mem_cons_self x xs)).1]
    rw [ih (fun y hy => h y (List.mem_cons_of_mem x hy))]
    simp only [List.length_cons]
    ring

lemma noStraddle_flatten {sub : List Char} (l : List (List Char))
    (h : ∀ x ∈ l, noStraddle sub x) : noStraddle sub l.flatten := by
  induction l with
  | nil => exact noStraddle_nil sub
  | cons x xs ih =>
    rw [List.flatten_cons]
    exact noStraddle_append (h x (List.mem_cons_self x xs))
      (ih (fun y hy => h y (List.mem_cons_of_mem x hy)))

lemma subChar_ne_lt (c : Char) : subChar c ≠ '<' := by
  by_cases h : isAsciiAlnum c = true
  · rw [subChar, if_pos h]
    intro hc
    rw [hc] at h
    exact absurd h (by decide)
  · rw [subChar, if_neg h]
    decide

lemma slugify_lt_not_mem (s : List Char) : '<' ∉ slugify s := by
  intro hm
  simp only [slugify, pyLower, List.map_map, List.mem_map] at hm
  obtain ⟨c, _, hc⟩ := hm
  exact subChar_ne_lt _ hc

lemma charLower_eq_lt {c : Char} (h : charLower c = '<') : c = '<' := by
  rcases charLower_mem_cases c with hc | hc
  · rw [hc] at h
    exact h
  · rw [h] at hc
    exact absurd hc (by decide)

lemma pyLower_lt_not_mem {s : List Char} (h : '<' ∉ s) : '<' ∉ pyLower s := by
  intro hm
  simp only [pyLower, List.mem_map] at hm
  obtain ⟨c, hcs, hc⟩ := hm
  exact h (charLower_eq_lt hc ▸ hcs)

lemma normalize_lt_not_mem {s : List Char} (h : '<' ∉ s) :
    '<' ∉ normalize_package_name s := by
  rw [normalize_package_name]
  split_ifs with h1 h2
  · decide
  · decide
  · exact h

lemma splitext_fst_subset (fn : List Char) : ∀ c, c ∈ (splitext fn).1 → c ∈ fn := by
  cases hl : lastIdx '.' fn with
  | none => simp [splitext, hl]
  | some d =>
    by_cases hany : (fn.take d).any (fun c => c ≠ '.') = true
    · simp only [splitext, hl, if_pos hany]
      exact fun c hc => List.take_subset d fn hc
    · simp only [splitext, hl]
      rw [if_neg hany]
      exact fun c hc => hc

lemma noStraddle_item_of_not_mem {a : List Char} (h : '<' ∉ a) : noStraddle itemTag a := by
  rw [show itemTag = '<' :: "item>".toList from rfl]
  exact noStraddle_of_not_mem h

lemma countSub_item_zero {a : List Char} (h : '<' ∉ a) : countSub itemTag a = 0 := by
  rw [show itemTag = '<' :: "item>".toList from rfl]
  exact countSub_eq_zero_of_not_mem h

lemma noStraddle_sa_of_not_mem {a : List Char} (h : '<' ∉ a) : noStraddle strArrayTag a := by
  rw [show strArrayTag = '<' :: "string-array".toList from rfl]
  exact noStraddle_of_not_mem h

lemma countSub_sa_zero {a : List Char} (h : '<' ∉ a) : countSub strArrayTag a = 0 := by
  rw [show strArrayTag = '<' :: "string-array".toList from rfl]
  exact countSub_eq_zero_of_not_mem h

lemma item_line_mapping_facts {pkg fn : List Char} (hpkg : '<' ∉ pkg) (hfn : '<' ∉ fn) :
    countSub itemTag (item_line_mapping pkg fn) = 1 ∧
    noStraddle itemTag (item_line_mapping pkg fn) ∧
    countSub strArrayTag (item_line_mapping pkg fn) = 0 ∧
    noStraddle strArrayTag (item_line_mapping pkg fn) := by
  have hX : '<' ∉ (':' :: (splitext fn).1) := by
    intro hm
    rcases List.mem_cons.mp hm with h1 | h1
    · exact absurd h1 (by decide)
    · exact hfn (splitext_fst_subset fn '<' h1)
  have heq : item_line_mapping pkg fn
      = "    <item>".toList ++ (pkg ++ ((':' :: (splitext fn).1) ++ "</item>\n".toList)) := by
    simp [item_line_mapping, List.append_assoc]
  refine ⟨?_, ?_, ?_, ?_⟩
  · rw [heq, countSub_append _ _ _ (by decide),
      countSub_append _ _ _ (noStraddle_item_of_not_mem hpkg),
      countSub_append _ _ _ (noStraddle_item_of_not_mem hX),
      countSub_item_zero hpkg, countSub_item_zero hX]
    decide
  · rw [heq]
    exact noStraddle_append (by decide) (noStraddle_append (noStraddle_item_of_not_mem hpkg)
      (noStraddle_append (noStraddle_item_of_not_mem hX) (by decide)))
  · rw [heq, countSub_append _ _ _ (by decide),
      countSub_append _ _ _ (noStraddle_sa_of_not_mem hpkg),
      countSub_append _ _ _ (noStraddle_sa_of_not_mem hX),
      countSub_sa_zero hpkg, countSub_sa_zero hX]
    decide
  · rw [heq]
    exact noStraddle_append (by decide) (noStraddle_append (noStraddle_sa_of_not_mem hpkg)
      (noStraddle_append (noStraddle_sa_of_not_mem hX) (by decide)))

lemma item_line_replacement_facts {slug pkgN fn : List Char} (hslug : '<' ∉ slug)
    (hpkgN : '<' ∉ pyLower pkgN) (hfn : '<' ∉ fn) :
    countSub itemTag (item_line_replacement slug pkgN fn) = 1 ∧
    noStraddle itemTag (item_line_replacement slug pkgN fn) ∧
    countSub strArrayTag (item_line_replacement slug pkgN fn) = 0 ∧
    noStraddle strArrayTag (item_line_replacement slug pkgN fn) := by
  have hB : '<' ∉ (splitext fn).1 := fun h1 => hfn (splitext_fst_subset fn '<' h1)
  have hP : '<' ∉ ('_' :: pyLower pkgN) := by
    intro hm
    rcases List.mem_cons.mp hm with h1 | h1
    · exact absurd h1 (by decide)
    · exact hpkgN h1
  have hS : '<' ∉ ('_' :: slug) := by
    intro hm
    rcases List.mem_cons.mp hm with h1 | h1
    · exact absurd h1 (by decide)
    · exact hslug h1
  have heq : item_line_replacement slug pkgN fn
      = "    <item>".toList ++ ((splitext fn).1 ++ (('_' :: pyLower pkgN)
          ++ (('_' :: slug) ++ "</item>\n".toList))) := by
    simp [item_line_replacement, List.append_assoc]
  refine ⟨?_, ?_, ?_, ?_⟩
  · rw [heq, countSub_append _ _ _ (by decide),
      countSub_append _ _ _ (noStraddle_item_of_not_mem hB),
      countSub_append _ _ _ (noStraddle_item_of_not_mem hP),
      countSub_append _ _ _ (noStraddle_item_of_not_mem hS),
      countSub_item_zero hB, countSub_item_zero hP, countSub_item_zero hS]
    decide
  · rw [heq]
    exact noStraddle_append (by decide) (noStraddle_append (noStraddle_item_of_not_mem hB)
      (noStraddle_append (noStraddle_item_of_not_mem hP)
        (noStraddle_append (noStraddle_item_of_not_mem hS) (by decide))))
  · rw [heq, countSub_append _ _ _ (by decide),
      countSub_append _ _ _ (noStraddle_sa_of_not_mem hB),
      countSub_append _ _ _ (noStraddle_sa_of_not_mem hP),
      countSub_append _ _ _ (noStraddle_sa_of_not_mem hS),
      countSub_sa_zero hB, countSub_sa_zero hP, countSub_sa_zero hS]
    decide
  · rw [heq]
    exact noStraddle_append (by decide) (noStraddle_append (noStraddle_sa_of_not_mem hB)
      (noStraddle_append (noStraddle_sa_of_not_mem hP)
        (noStraddle_append (noStraddle_sa_of_not_mem hS) (by decide))))

lemma mapping_source_items_facts (entries : List PackEntry)
    (hnames : ∀ e ∈ entries, '<' ∉ e.name ∧ ∀ f ∈ e.files, '<' ∉ f.name) :
    ∀ x ∈ mapping_source_items entries,
      countSub itemTag x = 1 ∧ noStraddle itemTag x ∧
      countSub strArrayTag x = 0 ∧ noStraddle strArrayTag x := by
  intro x hx
  simp only [mapping_source_items, List.mem_flatMap] at hx
  obtain ⟨e, he, hx⟩ := hx
  by_cases hdir : e.isDir = true
  · rw [if_pos hdir] at hx
    simp only [List.mem_map] at hx
    obtain ⟨fn, hfn, rfl⟩ := hx
    have hfn' : fn ∈ e.files.map PFile.name := List.mem_of_mem_filter hfn
    simp only [List.mem_map] at hfn'
    obtain ⟨f, hf, rfl⟩ := hfn'
    exact item_line_mapping_facts ((hnames e he).1) ((hnames e he).2 f hf)
  · rw [if_neg hdir] at hx
    exact absurd hx (List.not_mem_nil x)

lemma replacement_items_facts (slug : List Char) (entries : List PackEntry)
    (hslug : '<' ∉ slug)
    (hnames : ∀ e ∈ entries, '<' ∉ e.name ∧ ∀ f ∈ e.files, '<' ∉ f.name) :
    ∀ x ∈ replacement_items slug entries,
      countSub itemTag x = 1 ∧ noStraddle itemTag x ∧
      countSub strArrayTag x = 0 ∧ noStraddle strArrayTag x := by
  intro x hx
  simp only [replacement_items, List.mem_flatMap] at hx
  obtain ⟨e, he, hx⟩ := hx
  by_cases hdir : e.isDir = true
  · rw [if_pos hdir] at hx
    simp only [List.mem_map] at hx
    obtain ⟨fn, hfn, rfl⟩ := hx
    have hfn' : fn ∈ e.files.map PFile.name := List.mem_of_mem_filter hfn
    simp only [List.mem_map] at hfn'
    obtain ⟨f, hf, rfl⟩ := hfn'
    exact item_line_replacement_facts hslug
      (pyLower_lt_not_mem (normalize_lt_not_mem (hnames e he).1)) ((hnames e he).2 f hf)
  · rw [if_neg hdir] at hx
    exact absurd hx (List.not_mem_nil x)

lemma index_array_facts {slug : List Char} (hslug : '<' ∉ slug) :
    countSub itemTag (index_array slug) = 2 ∧
    countSub strArrayTag (index_array slug) = 1 ∧
    noStraddle itemTag (index_array slug) ∧
    noStraddle strArrayTag (index_array slug) := by
  have heq : index_array slug
      = "\n<string-array name=\"".toList ++ (slug ++ ("\">\n    <item>mapping_source_".toList
          ++ (slug ++ ("</item>\n    <item>replacement_".toList
          ++ (slug ++ "</item>\n</string-array>\n".toList))))) := by
    simp [index_array, List.append_assoc]
  refine ⟨?_, ?_, ?_, ?_⟩
  · rw [heq, countSub_append _ _ _ (by decide),
      countSub_append _ _ _ (noStraddle_item_of_not_mem hslug),
      countSub_append _ _ _ (by decide),
      countSub_append _ _ _ (noStraddle_item_of_not_mem hslug),
      countSub_append _ _ _ (by decide),
      countSub_append _ _ _ (noStraddle_item_of_not_mem hslug),
      countSub_item_zero hslug]
    decide
  · rw [heq, countSub_append _ _ _ (by decide),
      countSub_append _ _ _ (noStraddle_sa_of_not_mem hslug),
      countSub_append _ _ _ (by decide),
      countSub_append _ _ _ (noStraddle_sa_of_not_mem hslug),
      countSub_append _ _ _ (by decide),
      countSub_append _ _ _ (noStraddle_sa_of_not_mem hslug),
      countSub_sa_zero hslug]
    decide
  · rw [heq]
    exact noStraddle_append (by decide) (noStraddle_append (noStraddle_item_of_not_mem hslug)
      (noStraddle_append (by decide) (noStraddle_append (noStraddle_item_of_not_mem hslug)
        (noStraddle_append (by decide) (noStraddle_append (noStraddle_item_of_not_mem hslug)
          (by decide))))))
  · rw [heq]
    exact noStraddle_append (by decide) (noStraddle_append (noStraddle_sa_of_not_mem hslug)
      (noStraddle_append (by decide) (noStraddle_append (noStraddle_sa_of_not_mem hslug)
        (noStraddle_append (by decide) (noStraddle_append (noStraddle_sa_of_not_mem hslug)
          (by decide))))))

lemma mapping_source_array_facts (slug : List Char) (entries : List PackEntry)
    (hslug : '<' ∉ slug)
    (hnames : ∀ e ∈ entries, '<' ∉ e.name ∧ ∀ f ∈ e.files, '<' ∉ f.name) :
    countSub itemTag (mapping_source_array slug entries)
      = (mapping_source_items entries).length ∧
    countSub strArrayTag (mapping_source_array slug entries) = 1 ∧
    noStraddle itemTag (mapping_source_array slug entries) ∧
    noStraddle strArrayTag (mapping_source_array slug entries) := by
  have hitems := mapping_source_items_facts entries hnames
  have hflatitem : noStraddle itemTag (mapping_source_items entries).flatten :=
    noStraddle_flatten _ (fun x hx => (hitems x hx).2.1)
  have hflatsa : noStraddle strArrayTag (mapping_source_items entries).flatten :=
    noStraddle_flatten _ (fun x hx => (hitems x hx).2.2.2)
  have heq : mapping_source_array slug entries
      = "\n<string-array name=\"mapping_source_".toList ++ (slug ++ ("\">\n".toList
          ++ ((mapping_source_items entries).flatten ++ "</string-array>\n".toList))) := by
    simp [mapping_source_array, List.append_assoc]
  refine ⟨?_, ?_, ?_, ?_⟩
  · rw [heq, countSub_append _ _ _ (by decide),
      countSub_append _ _ _ (noStraddle_item_of_not_mem hslug),
      countSub_append _ _ _ (by decide),
      countSub_append _ _ _ hflatitem,
      countSub_item_zero hslug,
      countSub_flatten itemTag 1 _ (fun x hx => ⟨(hitems x hx).1, (hitems x hx).2.1⟩),
      show countSub itemTag "\n<string-array name=\"mapping_source_".toList = 0 from by decide,
      show countSub itemTag "\">\n".toList = 0 from by decide,
      show countSub itemTag "</string-array>\n".toList = 0 from by decide]
    omega
  · rw [heq, countSub_append _ _ _ (by decide),
      countSub_append _ _ _ (noStraddle_sa_of_not_mem hslug),
      countSub_append _ _ _ (by decide),
      countSub_append _ _ _ hflatsa,
      countSub_sa_zero hslug,
      countSub_flatten strArrayTag 0 _ (fun x hx => ⟨(hitems x hx).2.2.1, (hitems x hx).2.2.2⟩),
      show countSub strArrayTag "\n<string-array name=\"mapping_source_".toList = 1 from by decide,
      show countSub strArrayTag "\">\n".toList = 0 from by decide,
      show countSub strArrayTag "</string-array>\n".toList = 0 from by decide]
    omega
  · rw [heq]
    exact noStraddle_append (by decide) (noStraddle_append (noStraddle_item_of_not_mem hslug)
      (noStraddle_append (by decide) (noStraddle_append hflatitem (by decide))))
  · rw [heq]
    exact noStraddle_append (by decide) (noStraddle_append (noStraddle_sa_of_not_mem hslug)
      (noStraddle_append (by decide) (noStraddle_append hflatsa (by decide))))

lemma replacement_array_facts (slug : List Char) (entries : List PackEntry)
    (hslug : '<' ∉ slug)
    (hnames : ∀ e ∈ entries, '<' ∉ e.name ∧ ∀ f ∈ e.files, '<' ∉ f.name) :
    countSub itemTag (replacement_array slug entries)
      = (replacement_items slug entries).length ∧
    countSub strArrayTag (replacement_array slug entries) = 1 ∧
    noStraddle itemTag (replacement_array slug entries) ∧
    noStraddle strArrayTag (replacement_array slug entries) := by
  have hitems := replacement_items_facts slug entries hslug hnames
  have hflatitem : noStraddle itemTag (replacement_items slug entries).flatten :=
    noStraddle_flatten _ (fun x hx => (hitems x hx).2.1)
  have hflatsa : noStraddle strArrayTag (replacement_items slug entries).flatten :=
    noStraddle_flatten _ (fun x hx => (hitems x hx).2.2.2)
  have heq : replacement_array slug entries
      = "\n<string-array name=\"replacement_".toList ++ (slug ++ ("\">\n".toList
          ++ ((replacement_items slug entries).flatten ++ "</string-array>\n".toList))) := by
    simp [replacement_array, List.append_assoc]
  refine ⟨?_, ?_, ?_, ?_⟩
  · rw [heq, countSub_append _ _ _ (by decide),
      countSub_append _ _ _ (noStraddle_item_of_not_mem hslug),
      countSub_append _ _ _ (by decide),
      countSub_append _ _ _ hflatitem,
      countSub_item_zero hslug,
      countSub_flatten itemTag 1 _ (fun x hx => ⟨(hitems x hx).1, (hitems x hx).2.1⟩),
      show countSub itemTag "\n<string-array name=\"replacement_".toList = 0 from by decide,
      show countSub itemTag "\">\n".toList = 0 from by decide,
      show countSub itemTag "</string-array>\n".toList = 0 from by decide]
    omega
  · rw [heq, countSub_append _ _ _ (by decide),
      countSub_append _ _ _ (noStraddle_sa_of_not_mem hslug),
      countSub_append _ _ _ (by decide),
      countSub_append _ _ _ hflatsa,
      countSub_sa_zero hslug,
      countSub_flatten strArrayTag 0 _ (fun x hx => ⟨(hitems x hx).2.2.1, (hitems x hx).2.2.2⟩),
      show countSub strArrayTag "\n<string-array name=\"replacement_".toList = 1 from by decide,
      show countSub strArrayTag "\">\n".toList = 0 from by decide,
      show countSub strArrayTag "</string-array>\n".toList = 0 from by decide]
    omega
  · rw [heq]
    exact noStraddle_append (by decide) (noStraddle_append (noStraddle_item_of_not_mem hslug)
      (noStraddle_append (by decide) (noStraddle_append hflatitem (by decide))))
  · rw [heq]
    exact noStraddle_append (by decide) (noStraddle_append (noStraddle_sa_of_not_mem hslug)
      (noStraddle_append (by decide) (noStraddle_append hflatsa (by decide))))

lemma items_length_eq (slug : List Char) (entries : List PackEntry) :
    (mapping_source_items entries).length = (replacement_items slug entries).length := by
  induction entries with
  | nil => rfl
  | cons e es ih =>
    simp only [mapping_source_items, replacement_items, List.flatMap_cons,
      List.length_append] at ih ⊢
    rw [ih]
    congr 1
    by_cases hdir : e.isDir = true
    · simp [hdir]
    · simp [hdir]

/-- C5 (amended): per pack the arrays splicer emits exactly three string
arrays — the index array, the mapping-source array and the replacement array,
in this order; the mapping-source and replacement arrays have matching item
counts (one item per qualifying file), while the index array always has
exactly two items (the names of the other two arrays), so the three counts
agree only for packs with exactly two qualifying files.  (Item and array
counts are occurrence counts of `<item>` and `<string-array` in the generated
text; names are assumed free of `<`.) -/
theorem arrays_per_pack (pack : IconPack)
    (hnames : ∀ e ∈ pack.entries, '<' ∉ e.name ∧ ∀ f ∈ e.files, '<' ∉ f.name) :
    pack_array_updates pack
      = index_array (slugify pack.name)
        ++ mapping_source_array (slugify pack.name) pack.entries
        ++ replacement_array (slugify pack.name) pack.entries ∧
    countSub strArrayTag (pack_array_updates pack) = 3 ∧
    countSub itemTag (index_array (slugify pack.name)) = 2 ∧
    countSub itemTag (mapping_source_array (slugify pack.name) pack.entries)
      = (mapping_source_items pack.entries).length ∧
    countSub itemTag (replacement_array (slugify pack.name) pack.entries)
      = (replacement_items (slugify pack.name) pack.entries).length ∧
    (mapping_source_items pack.entries).length
      = (replacement_items (slugify pack.name) pack.entries).length := by
  have hslug : '<' ∉ slugify pack.name := slugify_lt_not_mem pack.name
  have hidx := index_array_facts hslug
  have hmap := mapping_source_array_facts (slugify pack.name) pack.entries hslug hnames
  have hrep := replacement_array_facts (slugify pack.name) pack.entries hslug hnames
  refine ⟨rfl, ?_, hidx.1, hmap.1, hrep.1, items_length_eq (slugify pack.name) pack.entries⟩
  have heq : pack_array_updates pack
      = index_array (slugify pack.name)
        ++ (mapping_source_array (slugify pack.name) pack.entries
          ++ replacement_array (slugify pack.name) pack.entries) := by
    show index_array (slugify pack.name)
        ++ mapping_source_array (slugify pack.name) pack.entries
        ++ replacement_array (slugify pack.name) pack.entries = _
    rw [List.append_assoc]
  rw [heq, countSub_append _ _ _ hidx.2.2.2, countSub_append _ _ _ hmap.2.2.2,
    hidx.2.1, hmap.2.1, hrep.2.1]

/-- Counterexample to C5 as stated: for a pack with a single qualifying file,
the index array has two items while the mapping-source and replacement arrays
have one each, so the three arrays do not all have matching item counts. -/
theorem arrays_counterexample :
    pack_array_updates ⟨"P".toList, [⟨"q".toList, true, [⟨"a.png".toList, []⟩]⟩]⟩
      = index_array (slugify "P".toList)
        ++ mapping_source_array (slugify "P".toList) [⟨"q".toList, true, [⟨"a.png".toList, []⟩]⟩]
        ++ replacement_array (slugify "P".toList) [⟨"q".toList, true, [⟨"a.png".toList, []⟩]⟩] ∧
    countSub itemTag (index_array (slugify "P".toList)) = 2 ∧
    countSub itemTag (mapping_source_array (slugify "P".toList)
      [⟨"q".toList, true, [⟨"a.png".toList, []⟩]⟩]) = 1 ∧
    countSub itemTag (replacement_array (slugify "P".toList)
      [⟨"q".toList, true, [⟨"a.png".toList, []⟩]⟩]) = 1 ∧
    (2 : Nat) ≠ 1 := by
  decide

/-- Witness for C5 (amended) at a pack with two package directories. -/
theorem arrays_per_pack_witness :
    pack_array_updates ⟨"My Pack".toList,
        [⟨"com.android.systemui".toList, true,
          [⟨"a.png".toList, []⟩, ⟨"b.xml".toList, []⟩]⟩,
         ⟨"com.whatsapp".toList, true, [⟨"c.webp".toList, []⟩]⟩]⟩
      = index_array (slugify "My Pack".toList)
        ++ mapping_source_array (slugify "My Pack".toList)
          [⟨"com.android.systemui".toList, true,
            [⟨"a.png".toList, []⟩, ⟨"b.xml".toList, []⟩]⟩,
           ⟨"com.whatsapp".toList, true, [⟨"c.webp".toList, []⟩]⟩]
        ++ replacement_array (slugify "My Pack".toList)
          [⟨"com.android.systemui".toList, true,
            [⟨"a.png".toList, []⟩, ⟨"b.xml".toList, []⟩]⟩,
           ⟨"com.whatsapp".toList, true, [⟨"c.webp".toList, []⟩]⟩] ∧
    countSub strArrayTag (pack_array_updates ⟨"My Pack".toList,
        [⟨"com.android.systemui".toList, true,
          [⟨"a.png".toList, []⟩, ⟨"b.xml".toList, []⟩]⟩,
         ⟨"com.whatsapp".toList, true, [⟨"c.webp".toList, []⟩]⟩]⟩) = 3 ∧
    countSub itemTag (index_array (slugify "My Pack".toList)) = 2 ∧
    countSub itemTag (mapping_source_array (slugify "My Pack".toList)
        [⟨"com.android.systemui".toList, true,
          [⟨"a.png".toList, []⟩, ⟨"b.xml".toList, []⟩]⟩,
         ⟨"com.whatsapp".toList, true, [⟨"c.webp".toList, []⟩]⟩])
      = (mapping_source_items
          [⟨"com.android.systemui".toList, true,
            [⟨"a.png".toList, []⟩, ⟨"b.xml".toList, []⟩]⟩,
           ⟨"com.whatsapp".toList, true, [⟨"c.webp".toList, []⟩]⟩]).length ∧
    countSub itemTag (replacement_array (slugify "My Pack".toList)
        [⟨"com.android.systemui".toList, true,
          [⟨"a.png".toList, []⟩, ⟨"b.xml".toList, []⟩]⟩,
         ⟨"com.whatsapp".toList, true, [⟨"c.webp".toList, []⟩]⟩])
      = (replacement_items (slugify "My Pack".toList)
          [⟨"com.android.systemui".toList, true,
            [⟨"a.png".toList, []⟩, ⟨"b.xml".toList, []⟩]⟩,
           ⟨"com.whatsapp".toList, true, [⟨"c.webp".toList, []⟩]⟩]).length ∧
    (mapping_source_items
        [⟨"com.android.systemui".toList, true,
          [⟨"a.png".toList, []⟩, ⟨"b.xml".toList, []⟩]⟩,
         ⟨"com.whatsapp".toList, true, [⟨"c.webp".toList, []⟩]⟩]).length
      = (replacement_items (slugify "My Pack".toList)
          [⟨"com.android.systemui".toList, true,
            [⟨"a.png".toList, []⟩, ⟨"b.xml".toList, []⟩]⟩,
           ⟨"com.whatsapp".toList, true, [⟨"c.webp".toList, []⟩]⟩]).length :=
  arrays_per_pack ⟨"My Pack".toList,
      [⟨"com.android.systemui".toList, true,
        [⟨"a.png".toList, []⟩, ⟨"b.xml".toList, []⟩]⟩,
       ⟨"com.whatsapp".toList, true, [⟨"c.webp".toList, []⟩]⟩]⟩ (by decide)

end PXIconPack
